import Mathlib

/-!
Shallow embedding of the flatlogic/cli `generate` command
(`src/commands/generate.ts` and the entry point `src/index.ts`).

JavaScript runtime values (the preset entities, the `Application` object
built by the action, the JSON text written to `.flatlogicrc`) are modelled
by an ordered JSON AST `Json`: plain JS objects keep their keys in insertion
order, and `JSON.stringify` serializes them in that order, so an ordered
association structure is the faithful model.  The `generate` action is
modelled as a pure function from the invocation (cwd, name, parsed options)
and a world (what exists at the target path, whether the download and the
extraction succeed) to the ordered list of observable effects it performs
and the process outcome.
-/

namespace FlatlogicCli

mutual

/-- JSON values as JS runtime data: strings, booleans, ordered arrays and
ordered objects (insertion-ordered members).  Numbers and null never occur
in this program's data. -/
inductive Json where
  | str : String → Json
  | bool : Bool → Json
  | arr : JsonList → Json
  | obj : JsonMems → Json
deriving DecidableEq

inductive JsonList where
  | nil : JsonList
  | cons : Json → JsonList → JsonList
deriving DecidableEq

inductive JsonMems where
  | nil : JsonMems
  | cons : String → Json → JsonMems → JsonMems
deriving DecidableEq

end

def JsonList.ofList : List Json → JsonList
  | [] => .nil
  | j :: js => .cons j (JsonList.ofList js)

def JsonMems.ofList : List (String × Json) → JsonMems
  | [] => .nil
  | kv :: kvs => .cons kv.1 kv.2 (JsonMems.ofList kvs)

def JsonList.toList : JsonList → List Json
  | .nil => []
  | .cons j js => j :: js.toList

def JsonList.length (l : JsonList) : Nat := l.toList.length

def JsonMems.keys : JsonMems → List String
  | .nil => []
  | .cons k _ tl => k :: tl.keys

def JsonMems.lookup : JsonMems → String → Option Json
  | .nil, _ => none
  | .cons k v tl, key => if k = key then some v else tl.lookup key

/-- The key list of an object value (empty for non-objects). -/
def Json.keys : Json → List String
  | .obj m => m.keys
  | _ => []

/-- Member access on an object value (none for non-objects). -/
def Json.lookup (j : Json) (key : String) : Option Json :=
  match j with
  | .obj m => m.lookup key
  | _ => none

/-! ## The preset store

`PRESETS` of `src/commands/generate.ts` (lines 18-124): one preset `blank`
holding one entity `users`.  Each field object below mirrors the literal
in the source, key for key and in the written order (the first seven
fields list `show_in_form`/`show_in_table` before `editable`/`title`, the
last seven list `editable`/`title` first). -/

def field_firstName : Json := .obj (.ofList [
  ("name", .str "firstName"), ("type", .str "string"),
  ("show_in_form", .bool true), ("show_in_table", .bool true),
  ("editable", .bool false), ("title", .str "First Name")])

def field_lastName : Json := .obj (.ofList [
  ("name", .str "lastName"), ("type", .str "string"),
  ("show_in_form", .bool true), ("show_in_table", .bool true),
  ("editable", .bool false), ("title", .str "Last Name")])

def field_phoneNumber : Json := .obj (.ofList [
  ("name", .str "phoneNumber"), ("type", .str "string"),
  ("show_in_form", .bool true), ("show_in_table", .bool true),
  ("editable", .bool false), ("title", .str "Phone Number")])

def field_email : Json := .obj (.ofList [
  ("name", .str "email"), ("type", .str "string"),
  ("show_in_form", .bool true), ("show_in_table", .bool true),
  ("editable", .bool false), ("title", .str "E-mail")])

def field_role : Json := .obj (.ofList [
  ("name", .str "role"), ("type", .str "enum"),
  ("options", .arr (.ofList [.str "admin", .str "user"])),
  ("widget", .str "radio"),
  ("show_in_form", .bool true), ("show_in_table", .bool true),
  ("editable", .bool false), ("title", .str "Role")])

def field_disabled : Json := .obj (.ofList [
  ("name", .str "disabled"), ("type", .str "boolean"),
  ("show_in_form", .bool true), ("show_in_table", .bool true),
  ("editable", .bool false), ("title", .str "Disabled")])

def field_avatar : Json := .obj (.ofList [
  ("name", .str "avatar"), ("type", .str "images"),
  ("show_in_form", .bool true), ("show_in_table", .bool true),
  ("editable", .bool false), ("title", .str "Avatar")])

def field_password : Json := .obj (.ofList [
  ("name", .str "password"), ("type", .str "string"),
  ("editable", .bool false), ("title", .str "Password"),
  ("show_in_form", .bool false), ("show_in_table", .bool false)])

def field_emailVerified : Json := .obj (.ofList [
  ("name", .str "emailVerified"), ("type", .str "boolean"),
  ("editable", .bool false), ("title", .str "emailVerified"),
  ("show_in_form", .bool false), ("show_in_table", .bool false)])

def field_emailVerificationToken : Json := .obj (.ofList [
  ("name", .str "emailVerificationToken"), ("type", .str "string"),
  ("editable", .bool false), ("title", .str "emailVerificationToken"),
  ("show_in_form", .bool false), ("show_in_table", .bool false)])

def field_emailVerificationTokenExpiresAt : Json := .obj (.ofList [
  ("name", .str "emailVerificationTokenExpiresAt"), ("type", .str "datetime"),
  ("editable", .bool false), ("title", .str "emailVerificationTokenExpiresAt"),
  ("show_in_form", .bool false), ("show_in_table", .bool false)])

def field_passwordResetToken : Json := .obj (.ofList [
  ("name", .str "passwordResetToken"), ("type", .str "string"),
  ("editable", .bool false), ("title", .str "passwordResetToken"),
  ("show_in_form", .bool false), ("show_in_table", .bool false)])

def field_passwordResetTokenExpiresAt : Json := .obj (.ofList [
  ("name", .str "passwordResetTokenExpiresAt"), ("type", .str "datetime"),
  ("editable", .bool false), ("title", .str "passwordResetTokenExpiresAt"),
  ("show_in_form", .bool false), ("show_in_table", .bool false)])

def field_provider : Json := .obj (.ofList [
  ("name", .str "provider"), ("type", .str "string"),
  ("editable", .bool false), ("title", .str "provider"),
  ("show_in_form", .bool false), ("show_in_table", .bool false)])

def usersFields : List Json := [
  field_firstName, field_lastName, field_phoneNumber, field_email,
  field_role, field_disabled, field_avatar, field_password,
  field_emailVerified, field_emailVerificationToken,
  field_emailVerificationTokenExpiresAt, field_passwordResetToken,
  field_passwordResetTokenExpiresAt, field_provider]

def usersEntity : Json := .obj (.ofList [
  ("name", .str "users"), ("show_field", .str "firstName"),
  ("fields", .arr (.ofList usersFields))])

/-- `PRESETS.blank`: the entity list of the single preset. -/
def blankEntities : Json := .arr (.ofList [usersEntity])

/-- The preset store: an object with one key, `blank`. -/
def PRESETS : List (String × Json) := [("blank", blankEntities)]

/-- `PRESETS[key]`: JS property lookup on the store. -/
def PRESETS_lookup (key : String) : Option Json :=
  (PRESETS.find? (fun p => p.1 == key)).map Prod.snd

/-- The `name` member of each object of the `fields` array of an entity. -/
def fieldNames (entity : Json) : List String :=
  match entity.lookup "fields" with
  | some (.arr l) => l.toList.filterMap (fun f =>
      match f.lookup "name" with
      | some (.str s) => some s
      | _ => none)
  | _ => []

/-! ## JSON.stringify

`fs.writeFile(..., JSON.stringify(app, null, 2))` pretty-prints the
application object with two-space indentation; `escapeChar` performs the
string escaping of `JSON.stringify`. -/

def lbrace : Char := '\x7b'

def rbrace : Char := '\x7d'

/-- Lower-case hex digit for a value below 16. -/
def toHexDigit (n : Nat) : Char :=
  if n < 10 then Char.ofNat (48 + n) else Char.ofNat (87 + n)

/-- The escape of one character inside a JSON string literal: the named
two-character escapes, `\u00..` for the other control characters, and the
character itself otherwise. -/
def escapeChar (c : Char) : List Char :=
  if c = '"' then ['\\', '"']
  else if c = '\\' then ['\\', '\\']
  else if c = Char.ofNat 8 then ['\\', 'b']
  else if c = Char.ofNat 12 then ['\\', 'f']
  else if c = '\n' then ['\\', 'n']
  else if c = Char.ofNat 13 then ['\\', 'r']
  else if c = '\t' then ['\\', 't']
  else if c.toNat < 32 then
    ['\\', 'u', '0', '0', toHexDigit (c.toNat / 16), toHexDigit (c.toNat % 16)]
  else [c]

def escapeList : List Char → List Char
  | [] => []
  | c :: cs => escapeChar c ++ escapeList cs

/-- A JSON string literal: quote, escaped body, quote. -/
def stringLit (s : String) : List Char :=
  '"' :: (escapeList s.data ++ ['"'])

/-- The indentation prefix at column `n`. -/
def pad (n : Nat) : List Char := List.replicate n ' '

mutual

/-- `JSON.stringify(v, null, 2)` of a value whose enclosing line is indented
to column `ind`, as a character list. -/
def Json.print : Json → Nat → List Char
  | .str s, _ => stringLit s
  | .bool true, _ => ['t', 'r', 'u', 'e']
  | .bool false, _ => ['f', 'a', 'l', 's', 'e']
  | .arr .nil, _ => ['[', ']']
  | .arr (.cons j js), ind =>
      ['[', '\n'] ++ (printItems (.cons j js) (ind + 2) ++
        ('\n' :: (pad ind ++ [']'])))
  | .obj .nil, _ => [lbrace, rbrace]
  | .obj (.cons k v m), ind =>
      [lbrace, '\n'] ++ (printMems (.cons k v m) (ind + 2) ++
        ('\n' :: (pad ind ++ [rbrace])))

/-- The items of a non-empty array: each on its own line at column `ind`,
comma separated. -/
def printItems : JsonList → Nat → List Char
  | .nil, _ => []
  | .cons j .nil, ind => pad ind ++ Json.print j ind
  | .cons j (.cons j2 js), ind =>
      pad ind ++ (Json.print j ind ++
        (',' :: '\n' :: printItems (.cons j2 js) ind))

/-- The members of a non-empty object: each `"key": value` on its own line at
column `ind`, comma separated. -/
def printMems : JsonMems → Nat → List Char
  | .nil, _ => []
  | .cons k v .nil, ind =>
      pad ind ++ (stringLit k ++ (':' :: ' ' :: Json.print v ind))
  | .cons k v (.cons k2 v2 m), ind =>
      pad ind ++ (stringLit k ++ (':' :: ' ' :: Json.print v ind) ++
        (',' :: '\n' :: printMems (.cons k2 v2 m) ind))

end

/-- The sidecar text: `JSON.stringify(app, null, 2)`. -/
def Json.stringify (j : Json) : String := String.mk (Json.print j 0)

/-! ## The command-line option model

`commander` puts into the options object exactly the recognized flags the
user supplied (`--frontend`, `--backend`, `--db`, `--design`, each taking a
value); an unsupplied flag has no key. -/

structure Options where
  frontend : Option String
  backend : Option String
  db : Option String
  design : Option String
deriving DecidableEq

/-- `Object.keys(options).length`. -/
def Options.numKeys (o : Options) : Nat :=
  (if o.frontend.isSome then 1 else 0) + (if o.backend.isSome then 1 else 0) +
    (if o.db.isSome then 1 else 0) + (if o.design.isSome then 1 else 0)

/-- `Object.keys(options).length !== 0` (generate.ts line 265). -/
def Options.hasArguments (o : Options) : Bool := o.numKeys != 0

/-- JS truthiness test `!arg[option]`: an absent key reads `undefined`
(falsy), and the empty string is falsy too. -/
def falsyOpt : Option String → Bool
  | none => true
  | some s => s == ""

/-- The message `validateOption` prints (without the chalk colour codes). -/
def requiredMsg (option : String) : String :=
  "error: option '--" ++ option ++ "' is required"

/-- `validateOption` (generate.ts 179-186): the value when truthy, otherwise
the error message printed right before `process.exit(1)`. -/
def validateOption (arg : Option String) (option : String) :
    Except String String :=
  if falsyOpt arg then .error (requiredMsg option) else .ok (arg.getD "")

/-- `cliMode` (generate.ts 188-196): validate the four options in the written
order (frontend, backend, db, design) and build the props object in that
member order; `entities` is `PRESETS.blank`. -/
def cliMode (options : Options) : Except String Json := do
  let frontend ← validateOption options.frontend "frontend"
  let backend ← validateOption options.backend "backend"
  let db ← validateOption options.db "db"
  let design ← validateOption options.design "design"
  pure (.obj (.ofList [
    ("frontend", .str frontend), ("backend", .str backend),
    ("db", .str db), ("design", .str design),
    ("entities", blankEntities)]))

/-- The `name`s of the five inquirer questions (generate.ts 199-233), in
prompt order.  Each offers exactly one choice. -/
def interactivePrompts : List String :=
  ["frontend", "backend", "db", "design", "schemaPreset"]

/-- `interactiveMode` (generate.ts 198-239): the answers object (one key per
question, each bound to the single offered choice value) spread into the
result, with `entities` looked up from the chosen preset and appended.  The
spread keeps the `schemaPreset` answer as a member. -/
def interactiveProps : Json := .obj (.ofList [
  ("frontend", .str "react"), ("backend", .str "nodejs"),
  ("db", .str "postgresql"), ("design", .str "classic"),
  ("schemaPreset", .str "blank"),
  ("entities", (PRESETS_lookup "blank").getD (.arr .nil))])

/-! ## The filesystem and network world -/

inductive FsKind where
  | file
  | dir
  | other
deriving DecidableEq

/-- What the invocation's environment holds: the entries at each path, and
whether the archive download and the archive extraction would succeed. -/
structure World where
  entries : List (String × FsKind)
  downloadOk : Bool
  extractOk : Bool
deriving DecidableEq

/-- `fs.stat`: the kind of the entry at the path, `none` when nothing is
there (the call rejects). -/
def World.stat (w : World) (p : String) : Option FsKind :=
  (w.entries.find? (fun e => e.1 == p)).map Prod.snd

/-- `pathExists` (generate.ts 241-250): `some true` for a file or directory,
`some false` when `stat` throws (nothing at the path), and `none` (JS
`undefined`: the function falls off its end) when `stat` succeeds on an
entry of another kind. -/
def pathExists (w : World) (p : String) : Option Bool :=
  match w.stat p with
  | none => some false
  | some .file => some true
  | some .dir => some true
  | some .other => none

/-- JS truthiness of the awaited `pathExists` result. -/
def truthy : Option Bool → Bool
  | some b => b
  | none => false

/-- POSIX `path.join` of a directory and one segment. -/
def joinPath (a b : String) : String := a ++ "/" ++ b

def generateUrl : String := "https://flatlogic.com/projects/cli"

/-- The message printed when the target path already exists. -/
def existsMsg (projectPath : String) : String :=
  "error: folder " ++ projectPath ++ " already exists"

/-! ## The generate action -/

/-- The observable actions of one `generate` invocation, in program order. -/
inductive Effect where
  | printErr (msg : String)
  | prompt (question : String)
  | mkdir (path : String)
  | postRequest (url : String) (body : Json)
  | writeTempFile
  | extractTo (dir : String)
  | rmTempFile
  | writeFile (path : String) (content : String)
deriving DecidableEq

/-- How the invocation ends: normal completion, `process.exit(code)`, or an
unhandled rejection (the process terminates with a non-zero status). -/
inductive Outcome where
  | ok
  | exited (code : Nat)
  | failed
deriving DecidableEq

structure GenResult where
  effects : List Effect
  outcome : Outcome
deriving DecidableEq

/-- `hasArguments ? cliMode(options) : await interactiveMode()` (generate.ts
267): the prompt effects performed and the resolved props object, or the
error message `cliMode` printed before exiting. -/
def resolveProps (options : Options) : Except String (List Effect × Json) :=
  if options.hasArguments then
    (cliMode options).map (fun p => ([], p))
  else
    .ok (interactivePrompts.map Effect.prompt, interactiveProps)

/-- The application object `(title: name, ...props)` (generate.ts 268-271):
the spread inserts the props members, in their order, after `title`. -/
def mkApp (name : String) (props : Json) : Json :=
  match props with
  | .obj m => .obj (.cons "title" (.str name) m)
  | j => j

/-- The `generate` action (generate.ts 252-286): the existence guard, mode
resolution, directory creation, download to the temporary file, extraction,
temporary-file removal and the sidecar write, each later step reached only
when every earlier one succeeded. -/
def generate (cwd name : String) (options : Options) (w : World) : GenResult :=
  let projectPath := joinPath cwd name
  if truthy (pathExists w projectPath) then
    ⟨[.printErr (existsMsg projectPath)], .exited 1⟩
  else
    match resolveProps options with
    | .error msg => ⟨[.printErr msg], .exited 1⟩
    | .ok (promptFx, props) =>
      let app := mkApp name props
      let schemaBody : Json := .obj (.cons "schema" app .nil)
      if (w.stat projectPath).isSome then
        ⟨promptFx ++ [.mkdir projectPath], .failed⟩
      else if !w.downloadOk then
        ⟨promptFx ++ [.mkdir projectPath, .postRequest generateUrl schemaBody],
          .failed⟩
      else if !w.extractOk then
        ⟨promptFx ++ [.mkdir projectPath, .postRequest generateUrl schemaBody,
          .writeTempFile, .extractTo projectPath], .failed⟩
      else
        ⟨promptFx ++ [.mkdir projectPath, .postRequest generateUrl schemaBody,
          .writeTempFile, .extractTo projectPath, .rmTempFile,
          .writeFile (joinPath projectPath ".flatlogicrc") (Json.stringify app)],
          .ok⟩

/-! ## A JSON parser

A recursive-descent parser for the JSON fragment the program's data uses
(strings, booleans, arrays, objects), with which the round-trip properties
of the sidecar file are stated.  `parseValue` carries fuel bounding the
nesting it may enter; `Json.parse` supplies fuel from the input length,
which always suffices. -/

def isWs (c : Char) : Bool :=
  c = ' ' || c = '\n' || c = '\t' || c = Char.ofNat 13

def skipWs : List Char → List Char
  | [] => []
  | c :: cs => if isWs c then skipWs cs else c :: cs

/-- The value of one hex digit (upper or lower case). -/
def hexVal (c : Char) : Option Nat :=
  if 48 ≤ c.toNat ∧ c.toNat ≤ 57 then some (c.toNat - 48)
  else if 97 ≤ c.toNat ∧ c.toNat ≤ 102 then some (c.toNat - 87)
  else if 65 ≤ c.toNat ∧ c.toNat ≤ 70 then some (c.toNat - 55)
  else none

/-- Parse the body of a JSON string literal after the opening quote: the
decoded characters, and the input after the closing quote. -/
def parseStringBody : List Char → Option (List Char × List Char)
  | [] => none
  | c :: rest =>
    if c = '"' then some ([], rest)
    else if c = '\\' then
      match rest with
      | [] => none
      | e :: rest1 =>
        if e = '"' then
          (parseStringBody rest1).map (fun p => ('"' :: p.1, p.2))
        else if e = '\\' then
          (parseStringBody rest1).map (fun p => ('\\' :: p.1, p.2))
        else if e = '/' then
          (parseStringBody rest1).map (fun p => ('/' :: p.1, p.2))
        else if e = 'b' then
          (parseStringBody rest1).map (fun p => (Char.ofNat 8 :: p.1, p.2))
        else if e = 'f' then
          (parseStringBody rest1).map (fun p => (Char.ofNat 12 :: p.1, p.2))
        else if e = 'n' then
          (parseStringBody rest1).map (fun p => ('\n' :: p.1, p.2))
        else if e = 'r' then
          (parseStringBody rest1).map (fun p => (Char.ofNat 13 :: p.1, p.2))
        else if e = 't' then
          (parseStringBody rest1).map (fun p => ('\t' :: p.1, p.2))
        else if e = 'u' then
          match rest1 with
          | a :: b :: c2 :: d :: rest2 =>
            match hexVal a, hexVal b, hexVal c2, hexVal d with
            | some ha, some hb, some hc, some hd =>
              (parseStringBody rest2).map (fun p =>
                (Char.ofNat (((ha * 16 + hb) * 16 + hc) * 16 + hd) :: p.1, p.2))
            | _, _, _, _ => none
          | _ => none
        else none
    else (parseStringBody rest).map (fun p => (c :: p.1, p.2))

mutual

/-- Parse one JSON value: the value and the input directly after it. -/
def parseValue : Nat → List Char → Option (Json × List Char)
  | 0, _ => none
  | fuel + 1, input =>
    match skipWs input with
    | [] => none
    | c :: rest =>
      if c = '"' then
        (parseStringBody rest).map (fun p => (.str (String.mk p.1), p.2))
      else if c = 't' then
        match rest with
        | 'r' :: 'u' :: 'e' :: rest1 => some (.bool true, rest1)
        | _ => none
      else if c = 'f' then
        match rest with
        | 'a' :: 'l' :: 's' :: 'e' :: rest1 => some (.bool false, rest1)
        | _ => none
      else if c = '[' then
        match skipWs rest with
        | ']' :: rest1 => some (.arr .nil, rest1)
        | rest1 => (parseItems fuel rest1).map (fun p => (.arr p.1, p.2))
      else if c = lbrace then
        match skipWs rest with
        | [] => none
        | c1 :: rest1 =>
          if c1 = rbrace then some (.obj .nil, rest1)
          else (parseMems fuel (c1 :: rest1)).map (fun p => (.obj p.1, p.2))
      else none

/-- Parse the items of a non-empty array, up to and including the closing
bracket. -/
def parseItems : Nat → List Char → Option (JsonList × List Char)
  | 0, _ => none
  | fuel + 1, input =>
    match parseValue fuel input with
    | none => none
    | some (v, rest) =>
      match skipWs rest with
      | ',' :: rest1 => (parseItems fuel rest1).map (fun p => (.cons v p.1, p.2))
      | ']' :: rest1 => some (.cons v .nil, rest1)
      | _ => none

/-- Parse the members of a non-empty object, up to and including the closing
brace. -/
def parseMems : Nat → List Char → Option (JsonMems × List Char)
  | 0, _ => none
  | fuel + 1, input =>
    match skipWs input with
    | [] => none
    | c :: rest =>
      if c = '"' then
        match parseStringBody rest with
        | none => none
        | some (k, rest1) =>
          match skipWs rest1 with
          | ':' :: rest2 =>
            match parseValue fuel rest2 with
            | none => none
            | some (v, rest3) =>
              match skipWs rest3 with
              | ',' :: rest4 =>
                (parseMems fuel rest4).map (fun p =>
                  (.cons (String.mk k) v p.1, p.2))
              | c4 :: rest4 =>
                if c4 = rbrace then some (.cons (String.mk k) v .nil, rest4)
                else none
              | [] => none
          | _ => none
      else none

end

/-- `JSON.parse` on the fragment the program emits: the parsed value when
the whole input is one JSON value surrounded by whitespace. -/
def Json.parse (s : String) : Option Json :=
  match parseValue (s.length + 1) s.data with
  | some (j, rest) => if skipWs rest = [] then some j else none
  | none => none

/-! ## Fuel adequacy -/

mutual

/-- The fuel `parseValue` needs on this value's printed form. -/
def fuelNeed : Json → Nat
  | .str _ => 1
  | .bool _ => 1
  | .arr .nil => 1
  | .arr (.cons j js) => 1 + fuelNeedL (.cons j js)
  | .obj .nil => 1
  | .obj (.cons k v m) => 1 + fuelNeedM (.cons k v m)

def fuelNeedL : JsonList → Nat
  | .nil => 0
  | .cons j js => 1 + Nat.max (fuelNeed j) (fuelNeedL js)

def fuelNeedM : JsonMems → Nat
  | .nil => 0
  | .cons _ v m => 1 + Nat.max (fuelNeed v) (fuelNeedM m)

end

/-- The characters that can start a printed JSON value. -/
def valueStart (c : Char) : Bool :=
  c = '"' || c = 't' || c = 'f' || c = '[' || c = lbrace

/-- What follows the first item of a printed array: for each later item a
comma, a newline, padding and the item itself, then the closing line. -/
def itemsTail : JsonList → Nat → Nat → List Char → List Char
  | .nil, _, indC, rest => '\n' :: (pad indC ++ (']' :: rest))
  | .cons j js, ind, indC, rest =>
      ',' :: '\n' :: (pad ind ++ (Json.print j ind ++ itemsTail js ind indC rest))

/-- What follows the first member of a printed object. -/
def memsTail : JsonMems → Nat → Nat → List Char → List Char
  | .nil, _, indC, rest => '\n' :: (pad indC ++ (rbrace :: rest))
  | .cons k v m, ind, indC, rest =>
      ',' :: '\n' :: (pad ind ++ (stringLit k ++
        (':' :: ' ' :: (Json.print v ind ++ memsTail m ind indC rest))))

/-! ## Claim-side definitions -/

/-- The first of the four required options, in the order `cliMode` checks
them, whose value is absent or empty; `none` when all four are present. -/
def firstMissing (o : Options) : Option String :=
  if falsyOpt o.frontend then some "frontend"
  else if falsyOpt o.backend then some "backend"
  else if falsyOpt o.db then some "db"
  else if falsyOpt o.design then some "design"
  else none

/-- Whether an effect mutates the filesystem. -/
def mutatesFs : Effect → Bool
  | .printErr _ => false
  | .prompt _ => false
  | .postRequest _ _ => false
  | .mkdir _ => true
  | .writeTempFile => true
  | .extractTo _ => true
  | .rmTempFile => true
  | .writeFile _ _ => true

/-- The number of the `fields` array's elements of an entity object. -/
def entityFieldCount (e : Json) : Nat :=
  match e.lookup "fields" with
  | some (.arr l) => l.length
  | _ => 0

/-- A full set of supplied flag values. -/
def sampleOptions : Options :=
  ⟨some "react", some "nodejs", some "postgresql", some "classic"⟩

/-- No flags supplied. -/
def noOptions : Options := ⟨none, none, none, none⟩

/-- An empty filesystem with a working download and extraction. -/
def freshWorld : World := ⟨[], true, true⟩

/-! ## Whitespace lemmas -/

theorem skipWs_cons_ws (c : Char) (cs : List Char) (h : isWs c = true) :
    skipWs (c :: cs) = skipWs cs := by
  rw [skipWs.eq_def]; simp [h]

theorem skipWs_cons_not_ws (c : Char) (cs : List Char) (h : isWs c = false) :
    skipWs (c :: cs) = c :: cs := by
  rw [skipWs.eq_def]; simp [h]

theorem skipWs_ws_append (ws x : List Char) (h : ∀ c ∈ ws, isWs c = true) :
    skipWs (ws ++ x) = skipWs x := by
  induction ws with
  | nil => rfl
  | cons c cs ih =>
    rw [List.cons_append, skipWs_cons_ws c _ (h c (List.mem_cons_self c cs))]
    exact ih (fun d hd => h d (List.mem_cons_of_mem c hd))

theorem pad_all_ws (n : Nat) : ∀ c ∈ pad n, isWs c = true := by
  intro c hc
  rw [pad] at hc
  rw [List.eq_of_mem_replicate hc]
  rfl

theorem skipWs_pad (n : Nat) (x : List Char) :
    skipWs (pad n ++ x) = skipWs x :=
  skipWs_ws_append _ x (pad_all_ws n)

theorem skipWs_nl (x : List Char) : skipWs ('\n' :: x) = skipWs x :=
  skipWs_cons_ws _ _ rfl

theorem parseValue_ws_append (fuel : Nat) (ws x : List Char)
    (h : ∀ c ∈ ws, isWs c = true) :
    parseValue fuel (ws ++ x) = parseValue fuel x := by
  cases fuel with
  | zero => rfl
  | succ f =>
    conv_lhs => rw [parseValue.eq_def]
    conv_rhs => rw [parseValue.eq_def]
    dsimp only
    rw [skipWs_ws_append ws x h]

theorem parseItems_ws_append (fuel : Nat) (ws x : List Char)
    (h : ∀ c ∈ ws, isWs c = true) :
    parseItems fuel (ws ++ x) = parseItems fuel x := by
  cases fuel with
  | zero => rfl
  | succ f =>
    conv_lhs => rw [parseItems.eq_def]
    conv_rhs => rw [parseItems.eq_def]
    dsimp only
    rw [parseValue_ws_append f ws x h]

theorem parseMems_ws_append (fuel : Nat) (ws x : List Char)
    (h : ∀ c ∈ ws, isWs c = true) :
    parseMems fuel (ws ++ x) = parseMems fuel x := by
  cases fuel with
  | zero => rfl
  | succ f =>
    conv_lhs => rw [parseMems.eq_def]
    conv_rhs => rw [parseMems.eq_def]
    dsimp only
    rw [skipWs_ws_append ws x h]

/-! ## String-literal round trip -/

theorem hexVal_toHexDigit (n : Nat) (h : n < 16) :
    hexVal (toHexDigit n) = some n := by
  interval_cases n <;> decide

theorem parseStringBody_escapeChar (c : Char) (X : List Char) :
    parseStringBody (escapeChar c ++ X) =
      (parseStringBody X).map (fun p => (c :: p.1, p.2)) := by
  by_cases h1 : c = '"'
  · subst h1
    show parseStringBody ('\\' :: '"' :: X) = _
    rw [parseStringBody.eq_def]; simp
  by_cases h2 : c = '\\'
  · subst h2
    show parseStringBody ('\\' :: '\\' :: X) = _
    rw [parseStringBody.eq_def]; simp
  by_cases h3 : c = Char.ofNat 8
  · subst h3
    show parseStringBody ('\\' :: 'b' :: X) = _
    rw [parseStringBody.eq_def]; simp
  by_cases h4 : c = Char.ofNat 12
  · subst h4
    show parseStringBody ('\\' :: 'f' :: X) = _
    rw [parseStringBody.eq_def]; simp
  by_cases h5 : c = '\n'
  · subst h5
    show parseStringBody ('\\' :: 'n' :: X) = _
    rw [parseStringBody.eq_def]; simp
  by_cases h6 : c = Char.ofNat 13
  · subst h6
    show parseStringBody ('\\' :: 'r' :: X) = _
    rw [parseStringBody.eq_def]; simp
  by_cases h7 : c = '\t'
  · subst h7
    show parseStringBody ('\\' :: 't' :: X) = _
    rw [parseStringBody.eq_def]; simp
  by_cases h8 : c.toNat < 32
  · rw [show escapeChar c =
        ['\\', 'u', '0', '0', toHexDigit (c.toNat / 16), toHexDigit (c.toNat % 16)]
      from by simp [escapeChar, h1, h2, h3, h4, h5, h6, h7, h8]]
    rw [List.cons_append, List.cons_append, List.cons_append, List.cons_append,
      List.cons_append, List.cons_append, List.nil_append]
    rw [parseStringBody.eq_def]
    dsimp only
    rw [hexVal_toHexDigit (c.toNat / 16) (by omega),
      hexVal_toHexDigit (c.toNat % 16) (by omega)]
    simp only [show hexVal '0' = some 0 from rfl]
    have hc : Char.ofNat (c.toNat / 16 * 16 + c.toNat % 16) = c := by
      rw [show c.toNat / 16 * 16 + c.toNat % 16 = c.toNat from by omega,
        Char.ofNat_toNat]
    simp [hc]
  · rw [show escapeChar c = [c] from by
      simp [escapeChar, h1, h2, h3, h4, h5, h6, h7, h8]]
    rw [List.cons_append, List.nil_append, parseStringBody.eq_def]
    dsimp only
    simp [h1, h2]

theorem parseStringBody_escape (cs rest : List Char) :
    parseStringBody (escapeList cs ++ ('"' :: rest)) = some (cs, rest) := by
  induction cs with
  | nil =>
    conv_lhs => rw [escapeList.eq_def]
    rw [List.nil_append, parseStringBody.eq_def]; simp
  | cons c cs ih =>
    conv_lhs => rw [escapeList.eq_def]
    dsimp only
    rw [List.append_assoc, parseStringBody_escapeChar, ih]
    rfl

/-! ## Printed values: head characters and tail decompositions -/

theorem valueStart_not_ws (c : Char) (h : valueStart c = true) : isWs c = false := by
  simp [valueStart] at h
  rcases h with (((rfl | rfl) | rfl) | rfl) | rfl <;> rfl

theorem valueStart_ne_rbracket (c : Char) (h : valueStart c = true) : c ≠ ']' := by
  simp [valueStart] at h
  rcases h with (((rfl | rfl) | rfl) | rfl) | rfl <;> decide

theorem print_head (j : Json) (ind : Nat) :
    ∃ c cs, Json.print j ind = c :: cs ∧ valueStart c = true := by
  cases j with
  | str s =>
    refine ⟨'"', escapeList s.data ++ ['"'], ?_, rfl⟩
    rw [Json.print.eq_def]; dsimp only; simp [stringLit]
  | bool b =>
    cases b with
    | false =>
      refine ⟨'f', ['a', 'l', 's', 'e'], ?_, rfl⟩
      rw [Json.print.eq_def]
    | true =>
      refine ⟨'t', ['r', 'u', 'e'], ?_, rfl⟩
      rw [Json.print.eq_def]
  | arr l =>
    cases l with
    | nil =>
      refine ⟨'[', [']'], ?_, rfl⟩
      rw [Json.print.eq_def]
    | cons j js =>
      refine ⟨'[', '\n' :: (printItems (.cons j js) (ind + 2) ++
        ('\n' :: (pad ind ++ [']']))), ?_, rfl⟩
      rw [Json.print.eq_def]; dsimp only; simp [List.cons_append]
  | obj m =>
    cases m with
    | nil =>
      refine ⟨lbrace, [rbrace], ?_, rfl⟩
      rw [Json.print.eq_def]
    | cons k v m2 =>
      refine ⟨lbrace, '\n' :: (printMems (.cons k v m2) (ind + 2) ++
        ('\n' :: (pad ind ++ [rbrace]))), ?_, rfl⟩
      rw [Json.print.eq_def]; dsimp only; simp [List.cons_append]

theorem printItems_append : ∀ (l : JsonList) (j : Json) (ind indC : Nat)
    (rest : List Char),
    printItems (.cons j l) ind ++ ('\n' :: (pad indC ++ (']' :: rest))) =
      pad ind ++ (Json.print j ind ++ itemsTail l ind indC rest)
  | .nil, j, ind, indC, rest => by
    rw [printItems.eq_def]
    dsimp only [itemsTail]
    simp [List.append_assoc]
  | .cons j2 js, j, ind, indC, rest => by
    rw [printItems.eq_def]
    dsimp only [itemsTail]
    rw [← printItems_append js j2 ind indC rest]
    simp [List.append_assoc]

theorem printMems_append : ∀ (m : JsonMems) (k : String) (v : Json)
    (ind indC : Nat) (rest : List Char),
    printMems (.cons k v m) ind ++ ('\n' :: (pad indC ++ (rbrace :: rest))) =
      pad ind ++ (stringLit k ++
        (':' :: ' ' :: (Json.print v ind ++ memsTail m ind indC rest)))
  | .nil, k, v, ind, indC, rest => by
    rw [printMems.eq_def]
    dsimp only [memsTail]
    simp [List.append_assoc]
  | .cons k2 v2 m2, k, v, ind, indC, rest => by
    rw [printMems.eq_def]
    dsimp only [memsTail]
    rw [← printMems_append m2 k2 v2 ind indC rest]
    simp [List.append_assoc]

/-! ## The print/parse round trip -/

theorem skipWs_rbracket (x : List Char) : skipWs (']' :: x) = ']' :: x :=
  skipWs_cons_not_ws _ _ rfl

theorem skipWs_comma (x : List Char) : skipWs (',' :: x) = ',' :: x :=
  skipWs_cons_not_ws _ _ rfl

theorem skipWs_colon (x : List Char) : skipWs (':' :: x) = ':' :: x :=
  skipWs_cons_not_ws _ _ rfl

theorem skipWs_rbrace (x : List Char) : skipWs (rbrace :: x) = rbrace :: x :=
  skipWs_cons_not_ws _ _ rfl

theorem skipWs_rbrace_lit (x : List Char) : skipWs ('\x7d' :: x) = '\x7d' :: x :=
  skipWs_cons_not_ws _ _ rfl

theorem nl_pad_ws (n : Nat) : ∀ c ∈ '\n' :: pad n, isWs c = true := by
  intro c hc
  rcases List.mem_cons.mp hc with rfl | hc2
  · rfl
  · exact pad_all_ws n c hc2

theorem fuelNeed_pos (j : Json) : 1 ≤ fuelNeed j := by
  cases j with
  | str s => simp [fuelNeed]
  | bool b => simp [fuelNeed]
  | arr l => cases l <;> simp [fuelNeed]
  | obj m => cases m <;> simp [fuelNeed]

theorem parse_print_aux (fuel : Nat) :
    (∀ (j : Json) (ind : Nat) (rest : List Char), fuelNeed j ≤ fuel →
      parseValue fuel (Json.print j ind ++ rest) = some (j, rest)) ∧
    (∀ (j : Json) (l : JsonList) (ind indC : Nat) (rest : List Char),
      fuelNeedL (.cons j l) ≤ fuel →
      parseItems fuel (Json.print j ind ++ itemsTail l ind indC rest) =
        some (.cons j l, rest)) ∧
    (∀ (k : String) (v : Json) (m : JsonMems) (ind indC : Nat)
      (rest : List Char), fuelNeedM (.cons k v m) ≤ fuel →
      parseMems fuel (stringLit k ++ (':' :: ' ' ::
          (Json.print v ind ++ memsTail m ind indC rest))) =
        some (.cons k v m, rest)) := by
  induction fuel with
  | zero =>
    refine ⟨?_, ?_, ?_⟩
    · intro j ind rest h
      exact absurd h (by have := fuelNeed_pos j; omega)
    · intro j l ind indC rest h
      rw [fuelNeedL.eq_def] at h; dsimp only at h; omega
    · intro k v m ind indC rest h
      rw [fuelNeedM.eq_def] at h; dsimp only at h; omega
  | succ f ih =>
    obtain ⟨ihV, ihI, ihM⟩ := ih
    refine ⟨?_, ?_, ?_⟩
    · intro j ind rest hf
      cases j with
      | str s =>
        rw [Json.print.eq_def]; dsimp only
        rw [parseValue.eq_def]; dsimp only
        rw [show stringLit s ++ rest =
          '"' :: (escapeList s.data ++ ('"' :: rest)) from by simp [stringLit]]
        rw [skipWs_cons_not_ws '"' _ rfl]
        dsimp only
        rw [parseStringBody_escape]
        rfl
      | bool b =>
        cases b with
        | false =>
          rw [Json.print.eq_def]; dsimp only
          rw [parseValue.eq_def]; dsimp only
          rw [show (['f', 'a', 'l', 's', 'e'] : List Char) ++ rest =
            'f' :: 'a' :: 'l' :: 's' :: 'e' :: rest from rfl]
          rw [skipWs_cons_not_ws 'f' _ rfl]
          rfl
        | true =>
          rw [Json.print.eq_def]; dsimp only
          rw [parseValue.eq_def]; dsimp only
          rw [show (['t', 'r', 'u', 'e'] : List Char) ++ rest =
            't' :: 'r' :: 'u' :: 'e' :: rest from rfl]
          rw [skipWs_cons_not_ws 't' _ rfl]
          rfl
      | arr l =>
        cases l with
        | nil =>
          rw [Json.print.eq_def]; dsimp only
          rw [parseValue.eq_def]; dsimp only
          rw [show (['[', ']'] : List Char) ++ rest = '[' :: (']' :: rest) from rfl]
          rw [skipWs_cons_not_ws '[' _ rfl]
          simp [skipWs_rbracket]
        | cons j js =>
          rw [fuelNeed.eq_def] at hf; dsimp only at hf
          rw [Json.print.eq_def]; dsimp only
          rw [show (['[', '\n'] ++ (printItems (.cons j js) (ind + 2) ++
              ('\n' :: (pad ind ++ [']'])))) ++ rest
              = '[' :: '\n' :: (printItems (.cons j js) (ind + 2) ++
                ('\n' :: (pad ind ++ (']' :: rest)))) from by
            simp [List.cons_append, List.append_assoc]]
          rw [printItems_append]
          rw [parseValue.eq_def]; dsimp only
          rw [skipWs_cons_not_ws '[' _ rfl]
          dsimp only
          rw [if_neg (by decide : ¬ ('[' : Char) = '"'),
            if_neg (by decide : ¬ ('[' : Char) = 't'),
            if_neg (by decide : ¬ ('[' : Char) = 'f'),
            if_pos (rfl : ('[' : Char) = '[')]
          rw [skipWs_nl, skipWs_pad]
          obtain ⟨c, cs, hp, hv⟩ := print_head j (ind + 2)
          rw [hp, List.cons_append, skipWs_cons_not_ws c _ (valueStart_not_ws c hv)]
          split
          · rename_i rest1 heq
            have hc : c = ']' := by
              have := congrArg List.head? heq
              simpa using this
            exact absurd hc (valueStart_ne_rbracket c hv)
          · rw [← List.cons_append, ← hp, ihI j js (ind + 2) ind rest (by omega)]
            rfl
      | obj m =>
        cases m with
        | nil =>
          rw [Json.print.eq_def]; dsimp only
          rw [parseValue.eq_def]; dsimp only
          rw [show ([lbrace, rbrace] : List Char) ++ rest =
            lbrace :: (rbrace :: rest) from rfl]
          rw [skipWs_cons_not_ws lbrace _ rfl]
          dsimp only
          simp only [lbrace, rbrace]
          rw [skipWs_rbrace_lit]
          simp
        | cons k v m2 =>
          rw [fuelNeed.eq_def] at hf; dsimp only at hf
          rw [Json.print.eq_def]; dsimp only
          rw [show ([lbrace, '\n'] ++ (printMems (.cons k v m2) (ind + 2) ++
              ('\n' :: (pad ind ++ [rbrace])))) ++ rest
              = lbrace :: '\n' :: (printMems (.cons k v m2) (ind + 2) ++
                ('\n' :: (pad ind ++ (rbrace :: rest)))) from by
            simp [List.cons_append, List.append_assoc]]
          rw [printMems_append]
          rw [parseValue.eq_def]; dsimp only
          rw [skipWs_cons_not_ws lbrace _ rfl]
          dsimp only
          rw [if_neg (by decide : ¬ lbrace = '"'),
            if_neg (by decide : ¬ lbrace = 't'),
            if_neg (by decide : ¬ lbrace = 'f'),
            if_neg (by decide : ¬ lbrace = '['),
            if_pos (rfl : lbrace = lbrace)]
          rw [skipWs_nl, skipWs_pad]
          rw [show stringLit k ++ (':' :: ' ' :: (Json.print v (ind + 2) ++
              memsTail m2 (ind + 2) ind rest)) =
            '"' :: (escapeList k.data ++ ('"' :: (':' :: ' ' ::
              (Json.print v (ind + 2) ++ memsTail m2 (ind + 2) ind rest)))) from by
            simp [stringLit]]
          rw [skipWs_cons_not_ws '"' _ rfl]
          dsimp only
          rw [if_neg (by decide : ¬ ('"' : Char) = rbrace)]
          rw [show ('"' : Char) :: (escapeList k.data ++ ('"' :: (':' :: ' ' ::
              (Json.print v (ind + 2) ++ memsTail m2 (ind + 2) ind rest)))) =
            stringLit k ++ (':' :: ' ' :: (Json.print v (ind + 2) ++
              memsTail m2 (ind + 2) ind rest)) from by simp [stringLit]]
          rw [ihM k v m2 (ind + 2) ind rest (by omega)]
          rfl
    · intro j l ind indC rest hf
      rw [fuelNeedL.eq_def] at hf; dsimp only at hf
      have hmax : Nat.max (fuelNeed j) (fuelNeedL l) ≤ f := by omega
      have hj : fuelNeed j ≤ f := le_trans (Nat.le_max_left _ _) hmax
      cases l with
      | nil =>
        rw [parseItems.eq_def]; dsimp only
        rw [ihV j ind _ hj]
        dsimp only
        rw [show itemsTail .nil ind indC rest =
          '\n' :: (pad indC ++ (']' :: rest)) from rfl]
        rw [skipWs_nl, skipWs_pad, skipWs_rbracket]
        rfl
      | cons j2 js =>
        have hl : fuelNeedL (.cons j2 js) ≤ f :=
          le_trans (Nat.le_max_right _ _) hmax
        rw [parseItems.eq_def]; dsimp only
        rw [ihV j ind _ hj]
        dsimp only
        rw [show itemsTail (.cons j2 js) ind indC rest = ',' :: '\n' :: (pad ind ++
          (Json.print j2 ind ++ itemsTail js ind indC rest)) from rfl]
        rw [skipWs_comma]
        have h1 : parseItems f ('\n' :: (pad ind ++ (Json.print j2 ind ++
            itemsTail js ind indC rest))) = some (.cons j2 js, rest) := by
          rw [show ('\n' :: (pad ind ++ (Json.print j2 ind ++
              itemsTail js ind indC rest))) =
            ('\n' :: pad ind) ++ (Json.print j2 ind ++ itemsTail js ind indC rest)
            from by simp]
          rw [parseItems_ws_append f _ _ (nl_pad_ws ind),
            ihI j2 js ind indC rest hl]
        simp [h1]
    · intro k v m ind indC rest hf
      rw [fuelNeedM.eq_def] at hf; dsimp only at hf
      have hmax : Nat.max (fuelNeed v) (fuelNeedM m) ≤ f := by omega
      have hv : fuelNeed v ≤ f := le_trans (Nat.le_max_left _ _) hmax
      cases m with
      | nil =>
        rw [parseMems.eq_def]; dsimp only
        rw [show stringLit k ++ (':' :: ' ' ::
            (Json.print v ind ++ memsTail .nil ind indC rest)) =
          '"' :: (escapeList k.data ++ ('"' :: (':' :: ' ' ::
            (Json.print v ind ++ memsTail .nil ind indC rest)))) from by
          simp [stringLit]]
        rw [skipWs_cons_not_ws '"' _ rfl]
        dsimp only
        rw [if_pos (rfl : ('"' : Char) = '"')]
        rw [parseStringBody_escape]
        dsimp only
        rw [skipWs_colon]
        have h2 : parseValue f (' ' :: (Json.print v ind ++
            memsTail .nil ind indC rest)) =
            some (v, memsTail .nil ind indC rest) := by
          rw [show (' ' :: (Json.print v ind ++ memsTail .nil ind indC rest)) =
            [' '] ++ (Json.print v ind ++ memsTail .nil ind indC rest) from rfl]
          rw [parseValue_ws_append f _ _ (by intro c hc; simp at hc; rw [hc]; rfl)]
          exact ihV v ind _ hv
        have h3 : skipWs (memsTail .nil ind indC rest) = rbrace :: rest := by
          rw [show memsTail .nil ind indC rest =
            '\n' :: (pad indC ++ (rbrace :: rest)) from rfl]
          rw [skipWs_nl, skipWs_pad, skipWs_rbrace]
        simp [h2, h3, rbrace]
      | cons k2 v2 m2 =>
        have hm : fuelNeedM (.cons k2 v2 m2) ≤ f :=
          le_trans (Nat.le_max_right _ _) hmax
        rw [parseMems.eq_def]; dsimp only
        rw [show stringLit k ++ (':' :: ' ' ::
            (Json.print v ind ++ memsTail (.cons k2 v2 m2) ind indC rest)) =
          '"' :: (escapeList k.data ++ ('"' :: (':' :: ' ' ::
            (Json.print v ind ++ memsTail (.cons k2 v2 m2) ind indC rest))))
          from by simp [stringLit]]
        rw [skipWs_cons_not_ws '"' _ rfl]
        dsimp only
        rw [if_pos (rfl : ('"' : Char) = '"')]
        rw [parseStringBody_escape]
        dsimp only
        rw [skipWs_colon]
        have h2 : parseValue f (' ' :: (Json.print v ind ++
            memsTail (.cons k2 v2 m2) ind indC rest)) =
            some (v, memsTail (.cons k2 v2 m2) ind indC rest) := by
          rw [show (' ' :: (Json.print v ind ++
              memsTail (.cons k2 v2 m2) ind indC rest)) =
            [' '] ++ (Json.print v ind ++ memsTail (.cons k2 v2 m2) ind indC rest)
            from rfl]
          rw [parseValue_ws_append f _ _ (by intro c hc; simp at hc; rw [hc]; rfl)]
          exact ihV v ind _ hv
        have h3 : skipWs (memsTail (.cons k2 v2 m2) ind indC rest) =
            ',' :: '\n' :: (pad ind ++ (stringLit k2 ++ (':' :: ' ' ::
              (Json.print v2 ind ++ memsTail m2 ind indC rest)))) := by
          rw [show memsTail (.cons k2 v2 m2) ind indC rest =
            ',' :: '\n' :: (pad ind ++ (stringLit k2 ++ (':' :: ' ' ::
              (Json.print v2 ind ++ memsTail m2 ind indC rest)))) from rfl]
          rw [skipWs_comma]
        have h1 : parseMems f ('\n' :: (pad ind ++ (stringLit k2 ++ (':' :: ' ' ::
            (Json.print v2 ind ++ memsTail m2 ind indC rest))))) =
            some (.cons k2 v2 m2, rest) := by
          rw [show ('\n' :: (pad ind ++ (stringLit k2 ++ (':' :: ' ' ::
              (Json.print v2 ind ++ memsTail m2 ind indC rest))))) =
            ('\n' :: pad ind) ++ (stringLit k2 ++ (':' :: ' ' ::
              (Json.print v2 ind ++ memsTail m2 ind indC rest))) from by simp]
          rw [parseMems_ws_append f _ _ (nl_pad_ws ind),
            ihM k2 v2 m2 ind indC rest hm]
        simp [h2, h3, h1]

theorem parseValue_print (fuel : Nat) (j : Json) (ind : Nat) (rest : List Char)
    (h : fuelNeed j ≤ fuel) :
    parseValue fuel (Json.print j ind ++ rest) = some (j, rest) :=
  (parse_print_aux fuel).1 j ind rest h

/-! ## The printed length bounds the fuel -/

theorem print_length_aux : ∀ n : Nat,
    (∀ j : Json, fuelNeed j ≤ n → ∀ ind : Nat,
      fuelNeed j + 1 ≤ (Json.print j ind).length) ∧
    (∀ l : JsonList, fuelNeedL l ≤ n → ∀ ind : Nat,
      fuelNeedL l ≤ (printItems l ind).length) ∧
    (∀ m : JsonMems, fuelNeedM m ≤ n → ∀ ind : Nat,
      fuelNeedM m ≤ (printMems m ind).length) := by
  intro n
  induction n with
  | zero =>
    refine ⟨?_, ?_, ?_⟩
    · intro j h ind
      exact absurd h (by have := fuelNeed_pos j; omega)
    · intro l h ind
      cases l with
      | nil => simp [fuelNeedL]
      | cons j js => rw [fuelNeedL.eq_def] at h; dsimp only at h; omega
    · intro m h ind
      cases m with
      | nil => simp [fuelNeedM]
      | cons k v m2 => rw [fuelNeedM.eq_def] at h; dsimp only at h; omega
  | succ n ih =>
    obtain ⟨ihJ, ihL, ihM⟩ := ih
    refine ⟨?_, ?_, ?_⟩
    · intro j hw ind
      cases j with
      | str s =>
        rw [Json.print.eq_def]; dsimp only
        simp [fuelNeed, stringLit]
      | bool b =>
        cases b <;> (rw [Json.print.eq_def]; simp [fuelNeed])
      | arr l =>
        cases l with
        | nil =>
          rw [Json.print.eq_def]; simp [fuelNeed]
        | cons j js =>
          rw [fuelNeed.eq_def] at hw ⊢; dsimp only at hw ⊢
          rw [Json.print.eq_def]; dsimp only
          have hL := ihL (.cons j js) (by omega) (ind + 2)
          simp [List.length_append, pad] at hL ⊢
          omega
      | obj m =>
        cases m with
        | nil =>
          rw [Json.print.eq_def]; simp [fuelNeed]
        | cons k v m2 =>
          rw [fuelNeed.eq_def] at hw ⊢; dsimp only at hw ⊢
          rw [Json.print.eq_def]; dsimp only
          have hM := ihM (.cons k v m2) (by omega) (ind + 2)
          simp [List.length_append, pad] at hM ⊢
          omega
    · intro l hw ind
      cases l with
      | nil => simp [fuelNeedL]
      | cons j js =>
        rw [fuelNeedL.eq_def] at hw ⊢; dsimp only at hw ⊢
        have hmax : Nat.max (fuelNeed j) (fuelNeedL js) ≤ n := by omega
        have hj := ihJ j (le_trans (Nat.le_max_left _ _) hmax) ind
        cases js with
        | nil =>
          rw [printItems.eq_def]; dsimp only
          simp [fuelNeedL, List.length_append, pad]
          omega
        | cons j2 js2 =>
          have hl2 := ihL (.cons j2 js2) (le_trans (Nat.le_max_right _ _) hmax) ind
          have hab : Nat.max (fuelNeed j) (fuelNeedL (.cons j2 js2)) ≤
              fuelNeed j + fuelNeedL (.cons j2 js2) :=
            Nat.max_le.mpr ⟨Nat.le_add_right _ _, Nat.le_add_left _ _⟩
          rw [printItems.eq_def]; dsimp only
          simp [List.length_append, pad] at hl2 ⊢
          omega
    · intro m hw ind
      cases m with
      | nil => simp [fuelNeedM]
      | cons k v m2 =>
        rw [fuelNeedM.eq_def] at hw ⊢; dsimp only at hw ⊢
        have hmax : Nat.max (fuelNeed v) (fuelNeedM m2) ≤ n := by omega
        have hv := ihJ v (le_trans (Nat.le_max_left _ _) hmax) ind
        cases m2 with
        | nil =>
          rw [printMems.eq_def]; dsimp only
          simp [fuelNeedM, List.length_append, pad, stringLit]
          omega
        | cons k2 v2 m3 =>
          have hm2 := ihM (.cons k2 v2 m3) (le_trans (Nat.le_max_right _ _) hmax) ind
          have hab : Nat.max (fuelNeed v) (fuelNeedM (.cons k2 v2 m3)) ≤
              fuelNeed v + fuelNeedM (.cons k2 v2 m3) :=
            Nat.max_le.mpr ⟨Nat.le_add_right _ _, Nat.le_add_left _ _⟩
          rw [printMems.eq_def]; dsimp only
          simp [List.length_append, pad, stringLit] at hm2 ⊢
          omega

/-- Round trip: parsing the pretty-printed serialization of any value
recovers the value. -/
theorem Json.parse_stringify (j : Json) :
    Json.parse (Json.stringify j) = some j := by
  have hfuel : fuelNeed j ≤ (Json.print j 0).length + 1 := by
    have h := (print_length_aux (fuelNeed j)).1 j (le_refl _) 0
    omega
  have h1 : parseValue ((Json.print j 0).length + 1) (Json.print j 0 ++ []) =
      some (j, []) := parseValue_print _ j 0 [] hfuel
  rw [List.append_nil] at h1
  simp only [Json.parse, Json.stringify]
  rw [show (String.mk (Json.print j 0)).length = (Json.print j 0).length from rfl,
    h1]
  rfl

/-! ## Option resolution lemmas -/

theorem cliMode_ok (o : Options)
    (h1 : falsyOpt o.frontend = false) (h2 : falsyOpt o.backend = false)
    (h3 : falsyOpt o.db = false) (h4 : falsyOpt o.design = false) :
    cliMode o = .ok (.obj (.ofList [
      ("frontend", .str (o.frontend.getD "")),
      ("backend", .str (o.backend.getD "")),
      ("db", .str (o.db.getD "")), ("design", .str (o.design.getD "")),
      ("entities", blankEntities)])) := by
  simp [cliMode, validateOption, h1, h2, h3, h4, Bind.bind, Except.bind,
    Pure.pure, Except.pure]

theorem cliMode_error_firstMissing (o : Options) (opt : String)
    (h : firstMissing o = some opt) :
    cliMode o = .error (requiredMsg opt) := by
  cases h1 : falsyOpt o.frontend with
  | true =>
    simp [firstMissing, h1] at h
    subst h
    simp [cliMode, validateOption, h1, Bind.bind, Except.bind]
  | false =>
    cases h2 : falsyOpt o.backend with
    | true =>
      simp [firstMissing, h1, h2] at h
      subst h
      simp [cliMode, validateOption, h1, h2, Bind.bind, Except.bind]
    | false =>
      cases h3 : falsyOpt o.db with
      | true =>
        simp [firstMissing, h1, h2, h3] at h
        subst h
        simp [cliMode, validateOption, h1, h2, h3, Bind.bind, Except.bind]
      | false =>
        cases h4 : falsyOpt o.design with
        | true =>
          simp [firstMissing, h1, h2, h3, h4] at h
          subst h
          simp [cliMode, validateOption, h1, h2, h3, h4, Bind.bind, Except.bind]
        | false =>
          simp [firstMissing, h1, h2, h3, h4] at h

theorem cliMode_ok_inv (o : Options) (props : Json) (h : cliMode o = .ok props) :
    props = .obj (.ofList [
      ("frontend", .str (o.frontend.getD "")),
      ("backend", .str (o.backend.getD "")),
      ("db", .str (o.db.getD "")), ("design", .str (o.design.getD "")),
      ("entities", blankEntities)]) ∧
    falsyOpt o.frontend = false ∧ falsyOpt o.backend = false ∧
    falsyOpt o.db = false ∧ falsyOpt o.design = false := by
  cases h1 : falsyOpt o.frontend with
  | true => simp [cliMode, validateOption, h1, Bind.bind, Except.bind] at h
  | false =>
    cases h2 : falsyOpt o.backend with
    | true => simp [cliMode, validateOption, h1, h2, Bind.bind, Except.bind] at h
    | false =>
      cases h3 : falsyOpt o.db with
      | true =>
        simp [cliMode, validateOption, h1, h2, h3, Bind.bind, Except.bind] at h
      | false =>
        cases h4 : falsyOpt o.design with
        | true =>
          simp [cliMode, validateOption, h1, h2, h3, h4, Bind.bind,
            Except.bind] at h
        | false =>
          rw [cliMode_ok o h1 h2 h3 h4] at h
          refine ⟨?_, rfl, rfl, rfl, rfl⟩
          injection h with h'
          exact h'.symm

theorem resolveProps_interactive (o : Options) (h : o.hasArguments = false) :
    resolveProps o = .ok (interactivePrompts.map Effect.prompt, interactiveProps) := by
  simp [resolveProps, h]

theorem resolveProps_cli_ok (o : Options) (props : Json)
    (h : o.hasArguments = true) (hc : cliMode o = .ok props) :
    resolveProps o = .ok ([], props) := by
  simp [resolveProps, h, hc, Except.map]

theorem resolveProps_cli_error (o : Options) (msg : String)
    (h : o.hasArguments = true) (hc : cliMode o = .error msg) :
    resolveProps o = .error msg := by
  simp [resolveProps, h, hc, Except.map]

theorem resolveProps_ok_inv (o : Options) (fx : List Effect) (props : Json)
    (h : resolveProps o = .ok (fx, props)) :
    (o.hasArguments = false ∧ fx = interactivePrompts.map Effect.prompt ∧
      props = interactiveProps) ∨
    (o.hasArguments = true ∧ fx = [] ∧ cliMode o = .ok props) := by
  cases ha : o.hasArguments with
  | false =>
    rw [resolveProps_interactive o ha] at h
    simp only [Except.ok.injEq, Prod.mk.injEq] at h
    exact Or.inl ⟨rfl, h.1.symm, h.2.symm⟩
  | true =>
    cases hc : cliMode o with
    | error msg =>
      rw [resolveProps_cli_error o msg ha hc] at h
      simp at h
    | ok props2 =>
      rw [resolveProps_cli_ok o props2 ha hc] at h
      simp only [Except.ok.injEq, Prod.mk.injEq] at h
      exact Or.inr ⟨rfl, h.1.symm, by rw [h.2]⟩

theorem resolveProps_prompts (o : Options) (fx : List Effect) (props : Json)
    (h : resolveProps o = .ok (fx, props)) :
    ∀ e ∈ fx, ∃ q, e = Effect.prompt q := by
  rcases resolveProps_ok_inv o fx props h with ⟨_, hfx, _⟩ | ⟨_, hfx, _⟩
  · subst hfx
    intro e he
    simp only [List.mem_map] at he
    obtain ⟨q, _, hq⟩ := he
    exact ⟨q, hq.symm⟩
  · subst hfx
    intro e he
    simp at he

/-! ## Generate action branch lemmas -/

theorem truthy_pathExists_none (w : World) (p : String) (h : w.stat p = none) :
    truthy (pathExists w p) = false := by
  simp [pathExists, h, truthy]

theorem truthy_pathExists_other (w : World) (p : String)
    (h : w.stat p = some .other) :
    truthy (pathExists w p) = false := by
  simp [pathExists, h, truthy]

theorem pathExists_other (w : World) (p : String)
    (h : w.stat p = some .other) : pathExists w p = none := by
  simp [pathExists, h]

theorem pathExists_file_or_dir (w : World) (p : String) (k : FsKind)
    (h : w.stat p = some k) (hk : k = FsKind.file ∨ k = FsKind.dir) :
    pathExists w p = some true := by
  rcases hk with rfl | rfl <;> simp [pathExists, h]

theorem generate_exists_exit (cwd name : String) (options : Options) (w : World)
    (h : truthy (pathExists w (joinPath cwd name)) = true) :
    generate cwd name options w =
      ⟨[.printErr (existsMsg (joinPath cwd name))], .exited 1⟩ := by
  simp [generate, h]

theorem generate_error_exit (cwd name : String) (options : Options) (w : World)
    (msg : String)
    (h : truthy (pathExists w (joinPath cwd name)) = false)
    (hrp : resolveProps options = .error msg) :
    generate cwd name options w = ⟨[.printErr msg], .exited 1⟩ := by
  simp [generate, h, hrp]

theorem generate_mkdir_failed (cwd name : String) (options : Options) (w : World)
    (fx : List Effect) (props : Json) (k : FsKind)
    (h : truthy (pathExists w (joinPath cwd name)) = false)
    (hrp : resolveProps options = .ok (fx, props))
    (hstat : w.stat (joinPath cwd name) = some k) :
    generate cwd name options w = ⟨fx ++ [.mkdir (joinPath cwd name)], .failed⟩ := by
  simp [generate, h, hrp, hstat]

theorem generate_download_failed (cwd name : String) (options : Options)
    (w : World) (fx : List Effect) (props : Json)
    (h : truthy (pathExists w (joinPath cwd name)) = false)
    (hrp : resolveProps options = .ok (fx, props))
    (hstat : w.stat (joinPath cwd name) = none)
    (hdl : w.downloadOk = false) :
    generate cwd name options w = ⟨fx ++ [.mkdir (joinPath cwd name),
      .postRequest generateUrl (.obj (.cons "schema" (mkApp name props) .nil))],
      .failed⟩ := by
  simp [generate, h, hrp, hstat, hdl]

theorem generate_extract_failed (cwd name : String) (options : Options)
    (w : World) (fx : List Effect) (props : Json)
    (h : truthy (pathExists w (joinPath cwd name)) = false)
    (hrp : resolveProps options = .ok (fx, props))
    (hstat : w.stat (joinPath cwd name) = none)
    (hdl : w.downloadOk = true) (hex : w.extractOk = false) :
    generate cwd name options w = ⟨fx ++ [.mkdir (joinPath cwd name),
      .postRequest generateUrl (.obj (.cons "schema" (mkApp name props) .nil)),
      .writeTempFile, .extractTo (joinPath cwd name)], .failed⟩ := by
  simp [generate, h, hrp, hstat, hdl, hex]

theorem generate_success (cwd name : String) (options : Options) (w : World)
    (fx : List Effect) (props : Json)
    (h : truthy (pathExists w (joinPath cwd name)) = false)
    (hrp : resolveProps options = .ok (fx, props))
    (hstat : w.stat (joinPath cwd name) = none)
    (hdl : w.downloadOk = true) (hex : w.extractOk = true) :
    generate cwd name options w = ⟨fx ++ [.mkdir (joinPath cwd name),
      .postRequest generateUrl (.obj (.cons "schema" (mkApp name props) .nil)),
      .writeTempFile, .extractTo (joinPath cwd name), .rmTempFile,
      .writeFile (joinPath (joinPath cwd name) ".flatlogicrc")
        (Json.stringify (mkApp name props))], .ok⟩ := by
  simp [generate, h, hrp, hstat, hdl, hex]

/-- Where a sidecar write can come from: only the success branch, writing the
serialized application, after a successful download and extraction into a
previously empty target. -/
theorem sidecar_inversion (cwd name : String) (options : Options) (w : World)
    (p c : String)
    (hw : Effect.writeFile p c ∈ (generate cwd name options w).effects) :
    ∃ fx props, resolveProps options = .ok (fx, props) ∧
      truthy (pathExists w (joinPath cwd name)) = false ∧
      w.stat (joinPath cwd name) = none ∧
      w.downloadOk = true ∧ w.extractOk = true ∧
      p = joinPath (joinPath cwd name) ".flatlogicrc" ∧
      c = Json.stringify (mkApp name props) ∧
      generate cwd name options w = ⟨fx ++ [.mkdir (joinPath cwd name),
        .postRequest generateUrl (.obj (.cons "schema" (mkApp name props) .nil)),
        .writeTempFile, .extractTo (joinPath cwd name), .rmTempFile,
        .writeFile (joinPath (joinPath cwd name) ".flatlogicrc")
          (Json.stringify (mkApp name props))], .ok⟩ := by
  cases htr : truthy (pathExists w (joinPath cwd name)) with
  | true =>
    rw [generate_exists_exit cwd name options w htr] at hw
    simp at hw
  | false =>
    cases hrp : resolveProps options with
    | error msg =>
      rw [generate_error_exit cwd name options w msg htr hrp] at hw
      simp at hw
    | ok pr =>
      obtain ⟨fx, props⟩ := pr
      have hpr := resolveProps_prompts options fx props hrp
      have hnofx : Effect.writeFile p c ∉ fx := by
        intro hin
        obtain ⟨q, hq⟩ := hpr _ hin
        simp at hq
      cases hstat : w.stat (joinPath cwd name) with
      | some k =>
        rw [generate_mkdir_failed cwd name options w fx props k htr hrp hstat] at hw
        simp [List.mem_append] at hw
        exact absurd hw hnofx
      | none =>
        cases hdl : w.downloadOk with
        | false =>
          rw [generate_download_failed cwd name options w fx props htr hrp
            hstat hdl] at hw
          simp [List.mem_append] at hw
          exact absurd hw hnofx
        | true =>
          cases hex : w.extractOk with
          | false =>
            rw [generate_extract_failed cwd name options w fx props htr hrp
              hstat hdl hex] at hw
            simp [List.mem_append] at hw
            exact absurd hw hnofx
          | true =>
            have hgen := generate_success cwd name options w fx props htr hrp
              hstat hdl hex
            rw [hgen] at hw
            simp [List.mem_append] at hw
            rcases hw with hw | hw
            · exact absurd hw hnofx
            · obtain ⟨hp, hc⟩ := hw
              exact ⟨fx, props, rfl, rfl, rfl, rfl, rfl, hp, hc, hgen⟩

/-! ## Mode-selection helpers -/

theorem no_prompt_nonInteractive (cwd name : String) (options : Options)
    (w : World) (hmode : options.hasArguments = true) :
    ∀ q, Effect.prompt q ∉ (generate cwd name options w).effects := by
  intro q hq
  cases htr : truthy (pathExists w (joinPath cwd name)) with
  | true =>
    rw [generate_exists_exit cwd name options w htr] at hq
    simp at hq
  | false =>
    cases hrp : resolveProps options with
    | error msg =>
      rw [generate_error_exit cwd name options w msg htr hrp] at hq
      simp at hq
    | ok pr =>
      obtain ⟨fx, props⟩ := pr
      have hfx : fx = [] := by
        rcases resolveProps_ok_inv options fx props hrp with ⟨hm, _, _⟩ | ⟨_, hfx, _⟩
        · rw [hmode] at hm; cases hm
        · exact hfx
      subst hfx
      cases hstat : w.stat (joinPath cwd name) with
      | some k =>
        rw [generate_mkdir_failed cwd name options w [] props k htr hrp hstat] at hq
        simp at hq
      | none =>
        cases hdl : w.downloadOk with
        | false =>
          rw [generate_download_failed cwd name options w [] props htr hrp
            hstat hdl] at hq
          simp at hq
        | true =>
          cases hex : w.extractOk with
          | false =>
            rw [generate_extract_failed cwd name options w [] props htr hrp
              hstat hdl hex] at hq
            simp at hq
          | true =>
            rw [generate_success cwd name options w [] props htr hrp
              hstat hdl hex] at hq
            simp at hq

theorem prompt_in_interactive (cwd name : String) (options : Options)
    (w : World)
    (hfresh : truthy (pathExists w (joinPath cwd name)) = false)
    (hmode : options.hasArguments = false) :
    Effect.prompt "frontend" ∈ (generate cwd name options w).effects := by
  have hrp := resolveProps_interactive options hmode
  cases hstat : w.stat (joinPath cwd name) with
  | some k =>
    rw [generate_mkdir_failed cwd name options w _ _ k hfresh hrp hstat]
    simp [interactivePrompts]
  | none =>
    cases hdl : w.downloadOk with
    | false =>
      rw [generate_download_failed cwd name options w _ _ hfresh hrp hstat hdl]
      simp [interactivePrompts]
    | true =>
      cases hex : w.extractOk with
      | false =>
        rw [generate_extract_failed cwd name options w _ _ hfresh hrp hstat
          hdl hex]
        simp [interactivePrompts]
      | true =>
        rw [generate_success cwd name options w _ _ hfresh hrp hstat hdl hex]
        simp [interactivePrompts]

/-! ## The claims -/

/-- C1: in non-interactive mode (at least one recognized flag supplied), when
the target-existence check passes, the four required options are checked in
the fixed order frontend, backend, db, design; if an option's value is absent
or empty, the process prints an error naming the first missing option in that
order and exits with status 1, and no directory is created. -/
theorem C1_missing_option_exits (cwd name : String) (options : Options)
    (w : World) (opt : String)
    (hfresh : truthy (pathExists w (joinPath cwd name)) = false)
    (hmode : options.hasArguments = true)
    (hmiss : firstMissing options = some opt) :
    generate cwd name options w = ⟨[.printErr (requiredMsg opt)], .exited 1⟩ ∧
    ∀ p, Effect.mkdir p ∉ (generate cwd name options w).effects := by
  have hcm := cliMode_error_firstMissing options opt hmiss
  have hrp := resolveProps_cli_error options (requiredMsg opt) hmode hcm
  have hg := generate_error_exit cwd name options w (requiredMsg opt) hfresh hrp
  refine ⟨hg, ?_⟩
  rw [hg]
  intro p hp
  simp at hp

/-- Witness for C1 at a concrete invocation: only `--backend` supplied, so
the first missing option is `frontend`. -/
theorem C1_witness :
    generate "/w" "app" ⟨none, some "nodejs", none, none⟩ ⟨[], true, true⟩ =
      ⟨[.printErr (requiredMsg "frontend")], .exited 1⟩ ∧
    ∀ p, Effect.mkdir p ∉
      (generate "/w" "app" ⟨none, some "nodejs", none, none⟩
        ⟨[], true, true⟩).effects :=
  C1_missing_option_exits "/w" "app" ⟨none, some "nodejs", none, none⟩
    ⟨[], true, true⟩ "frontend" (by decide) (by decide) (by decide)

/-- C2 counterexample: the `users` entity's field list has fourteen fields,
not thirteen as claimed. -/
theorem C2_counterexample :
    entityFieldCount usersEntity = 14 ∧ entityFieldCount usersEntity ≠ 13 := by
  decide

/-- C2 amended: the Preset Store defines exactly one preset, named `blank`,
containing exactly one entity named `users` whose ordered field list has
exactly fourteen fields. -/
theorem C2_fourteen_fields :
    PRESETS.length = 1 ∧ PRESETS.map Prod.fst = ["blank"] ∧
    blankEntities = .arr (.ofList [usersEntity]) ∧
    usersEntity.lookup "name" = some (.str "users") ∧
    entityFieldCount usersEntity = 14 := by
  refine ⟨rfl, rfl, rfl, by decide, by decide⟩

/-- C3 counterexample: in interactive mode the written application object
has a seventh key `schemaPreset` between `design` and `entities` — the
spread of the inquirer answers keeps the preset answer as a member. -/
theorem C3_counterexample :
    ∃ p c, Effect.writeFile p c ∈
        (generate "/home" "myapp" noOptions freshWorld).effects ∧
      ∃ a, Json.parse c = some a ∧
        a.keys = ["title", "frontend", "backend", "db", "design",
          "schemaPreset", "entities"] ∧
        a.keys ≠ ["title", "frontend", "backend", "db", "design", "entities"] := by
  have hrp : resolveProps noOptions =
      .ok (interactivePrompts.map Effect.prompt, interactiveProps) :=
    resolveProps_interactive noOptions (by decide)
  have hg := generate_success "/home" "myapp" noOptions freshWorld _ _
    (truthy_pathExists_none freshWorld _ (by decide)) hrp (by decide) rfl rfl
  refine ⟨joinPath (joinPath "/home" "myapp") ".flatlogicrc",
    Json.stringify (mkApp "myapp" interactiveProps), ?_,
    mkApp "myapp" interactiveProps, Json.parse_stringify _, ?_, ?_⟩
  · rw [hg]; simp
  · decide
  · decide

/-- C3 amended: every application object written to the sidecar has exactly
the keys title, frontend, backend, db, design, entities in non-interactive
mode; in interactive mode it additionally has schemaPreset between design
and entities. -/
theorem C3_sidecar_keys (cwd name : String) (options : Options) (w : World)
    (p c : String)
    (hw : Effect.writeFile p c ∈ (generate cwd name options w).effects) :
    ∃ a, Json.parse c = some a ∧
      a.keys = (if options.numKeys = 0 then
        ["title", "frontend", "backend", "db", "design", "schemaPreset",
          "entities"]
      else ["title", "frontend", "backend", "db", "design", "entities"]) := by
  obtain ⟨fx, props, hrp, _, _, _, _, _, hc, _⟩ :=
    sidecar_inversion cwd name options w p c hw
  subst hc
  refine ⟨mkApp name props, Json.parse_stringify _, ?_⟩
  rcases resolveProps_ok_inv options fx props hrp with
    ⟨hmode, _, hprops⟩ | ⟨hmode, _, hcm⟩
  · subst hprops
    have h0 : options.numKeys = 0 := by
      simpa [Options.hasArguments] using hmode
    rw [if_pos h0]
    simp [mkApp, interactiveProps, Json.keys, JsonMems.keys, JsonMems.ofList]
  · obtain ⟨hp2, _, _, _, _⟩ := cliMode_ok_inv options props hcm
    subst hp2
    have h0 : ¬ options.numKeys = 0 := by
      simpa [Options.hasArguments] using hmode
    rw [if_neg h0]
    simp [mkApp, Json.keys, JsonMems.keys, JsonMems.ofList]

/-- Witness for C3's amended claim at a concrete interactive invocation. -/
theorem C3_witness :
    ∃ a, Json.parse (Json.stringify (mkApp "myapp" interactiveProps)) = some a ∧
      a.keys = (if noOptions.numKeys = 0 then
        ["title", "frontend", "backend", "db", "design", "schemaPreset",
          "entities"]
      else ["title", "frontend", "backend", "db", "design", "entities"]) :=
  C3_sidecar_keys "/home" "myapp" noOptions freshWorld
    (joinPath (joinPath "/home" "myapp") ".flatlogicrc")
    (Json.stringify (mkApp "myapp" interactiveProps))
    (by
      have hrp : resolveProps noOptions =
          .ok (interactivePrompts.map Effect.prompt, interactiveProps) :=
        resolveProps_interactive noOptions (by decide)
      rw [generate_success "/home" "myapp" noOptions freshWorld _ _
        (truthy_pathExists_none freshWorld _ (by decide)) hrp (by decide) rfl rfl]
      simp)

/-- C4: with all four required flags supplied with non-empty values, nothing
at the target path, and a working download and extraction, the action
performs exactly: create the target directory, POST the schema, stream the
archive to the temporary file, extract it, delete the temporary file, and
only then write the sidecar, whose parsed title is the supplied name and
whose entities are the blank preset. -/
theorem C4_success_effects (cwd name : String) (options : Options) (w : World)
    (h1 : falsyOpt options.frontend = false)
    (h2 : falsyOpt options.backend = false)
    (h3 : falsyOpt options.db = false)
    (h4 : falsyOpt options.design = false)
    (hstat : w.stat (joinPath cwd name) = none)
    (hdl : w.downloadOk = true) (hex : w.extractOk = true) :
    ∃ app : Json,
      generate cwd name options w = ⟨[.mkdir (joinPath cwd name),
        .postRequest generateUrl (.obj (.cons "schema" app .nil)),
        .writeTempFile, .extractTo (joinPath cwd name), .rmTempFile,
        .writeFile (joinPath (joinPath cwd name) ".flatlogicrc")
          (Json.stringify app)], .ok⟩ ∧
      Json.parse (Json.stringify app) = some app ∧
      app.lookup "title" = some (.str name) ∧
      app.lookup "entities" = some blankEntities := by
  have hfe : options.frontend.isSome = true := by
    cases hf : options.frontend with
    | none => rw [hf] at h1; simp [falsyOpt] at h1
    | some s => rfl
  have hmode : options.hasArguments = true := by
    have hge : 1 ≤ options.numKeys := by
      simp [Options.numKeys, hfe]
      omega
    simp [Options.hasArguments]
    omega
  have hcm := cliMode_ok options h1 h2 h3 h4
  have hrp := resolveProps_cli_ok options _ hmode hcm
  have htr := truthy_pathExists_none w _ hstat
  have hg := generate_success cwd name options w [] _ htr hrp hstat hdl hex
  refine ⟨mkApp name (.obj (.ofList [
    ("frontend", .str (options.frontend.getD "")),
    ("backend", .str (options.backend.getD "")),
    ("db", .str (options.db.getD "")),
    ("design", .str (options.design.getD "")),
    ("entities", blankEntities)])), ?_, Json.parse_stringify _, ?_, ?_⟩
  · rw [hg]; rfl
  · simp [mkApp, Json.lookup, JsonMems.lookup, JsonMems.ofList]
  · simp [mkApp, Json.lookup, JsonMems.lookup, JsonMems.ofList]

/-- Witness for C4 at a concrete invocation with all four flags supplied. -/
theorem C4_witness :
    ∃ app : Json,
      generate "/w" "app" sampleOptions freshWorld =
        ⟨[.mkdir (joinPath "/w" "app"),
          .postRequest generateUrl (.obj (.cons "schema" app .nil)),
          .writeTempFile, .extractTo (joinPath "/w" "app"), .rmTempFile,
          .writeFile (joinPath (joinPath "/w" "app") ".flatlogicrc")
            (Json.stringify app)], .ok⟩ ∧
      Json.parse (Json.stringify app) = some app ∧
      app.lookup "title" = some (.str "app") ∧
      app.lookup "entities" = some blankEntities :=
  C4_success_effects "/w" "app" sampleOptions freshWorld (by decide) (by decide)
    (by decide) (by decide) (by decide) rfl rfl

/-- C5: whenever the sidecar file is written, parsing its text yields exactly
the value sent as the `schema` member of the POST body to the remote
service. -/
theorem C5_sidecar_matches_post (cwd name : String) (options : Options)
    (w : World) (p c : String)
    (hw : Effect.writeFile p c ∈ (generate cwd name options w).effects) :
    ∃ app, Effect.postRequest generateUrl (.obj (.cons "schema" app .nil)) ∈
        (generate cwd name options w).effects ∧
      Json.parse c = some app := by
  obtain ⟨fx, props, hrp, htr, hstat, hdl, hex, hp, hc, hgen⟩ :=
    sidecar_inversion cwd name options w p c hw
  subst hc
  refine ⟨mkApp name props, ?_, Json.parse_stringify _⟩
  rw [hgen]
  simp

/-- Witness for C5 at a concrete non-interactive invocation. -/
theorem C5_witness :
    ∃ app, Effect.postRequest generateUrl (.obj (.cons "schema" app .nil)) ∈
        (generate "/s" "proj" sampleOptions freshWorld).effects ∧
      Json.parse (Json.stringify (mkApp "proj" (.obj (.ofList [
        ("frontend", .str "react"), ("backend", .str "nodejs"),
        ("db", .str "postgresql"), ("design", .str "classic"),
        ("entities", blankEntities)])))) = some app :=
  C5_sidecar_matches_post "/s" "proj" sampleOptions freshWorld
    (joinPath (joinPath "/s" "proj") ".flatlogicrc")
    (Json.stringify (mkApp "proj" (.obj (.ofList [
      ("frontend", .str "react"), ("backend", .str "nodejs"),
      ("db", .str "postgresql"), ("design", .str "classic"),
      ("entities", blankEntities)]))))
    (by
      have hcm := cliMode_ok sampleOptions (by decide) (by decide) (by decide)
        (by decide)
      have hrp := resolveProps_cli_ok sampleOptions _ (by decide) hcm
      rw [generate_success "/s" "proj" sampleOptions freshWorld [] _
        (truthy_pathExists_none freshWorld _ (by decide)) hrp (by decide)
        rfl rfl]
      simp [sampleOptions])

/-- C6: a file or directory already at the target path makes the command
print the exists error and exit with status 1, with no filesystem mutation
and no network request. -/
theorem C6_existing_target_exits (cwd name : String) (options : Options)
    (w : World) (k : FsKind) (hk : w.stat (joinPath cwd name) = some k)
    (hfd : k = FsKind.file ∨ k = FsKind.dir) :
    generate cwd name options w =
      ⟨[.printErr (existsMsg (joinPath cwd name))], .exited 1⟩ ∧
    (∀ e ∈ (generate cwd name options w).effects, mutatesFs e = false) ∧
    (∀ url body, Effect.postRequest url body ∉
      (generate cwd name options w).effects) := by
  have htr : truthy (pathExists w (joinPath cwd name)) = true := by
    rw [pathExists_file_or_dir w _ k hk hfd]; rfl
  have hg := generate_exists_exit cwd name options w htr
  refine ⟨hg, ?_, ?_⟩
  · rw [hg]
    intro e he
    simp at he
    subst he
    rfl
  · rw [hg]
    intro url body hb
    simp at hb

/-- Witness for C6 with a file already at the target path. -/
theorem C6_witness :
    generate "/w" "app" sampleOptions ⟨[("/w/app", .file)], true, true⟩ =
      ⟨[.printErr (existsMsg (joinPath "/w" "app"))], .exited 1⟩ ∧
    (∀ e ∈ (generate "/w" "app" sampleOptions
      ⟨[("/w/app", .file)], true, true⟩).effects, mutatesFs e = false) ∧
    (∀ url body, Effect.postRequest url body ∉
      (generate "/w" "app" sampleOptions
        ⟨[("/w/app", .file)], true, true⟩).effects) :=
  C6_existing_target_exits "/w" "app" sampleOptions
    ⟨[("/w/app", .file)], true, true⟩ FsKind.file (by decide) (Or.inl rfl)

/-- C7: if the download fails, the process terminates with a non-zero status
and the sidecar is never written; conversely any sidecar write implies the
download and the extraction succeeded and the temporary file was deleted. -/
theorem C7_download_failure (cwd name : String) (options : Options)
    (w : World) :
    (w.downloadOk = false →
      ((generate cwd name options w).outcome = .failed ∨
        (generate cwd name options w).outcome = .exited 1) ∧
      ∀ p c, Effect.writeFile p c ∉ (generate cwd name options w).effects) ∧
    (∀ p c, Effect.writeFile p c ∈ (generate cwd name options w).effects →
      w.downloadOk = true ∧ w.extractOk = true ∧
      Effect.rmTempFile ∈ (generate cwd name options w).effects) := by
  constructor
  · intro hdl
    constructor
    · cases htr : truthy (pathExists w (joinPath cwd name)) with
      | true =>
        right
        rw [generate_exists_exit cwd name options w htr]
      | false =>
        cases hrp : resolveProps options with
        | error msg =>
          right
          rw [generate_error_exit cwd name options w msg htr hrp]
        | ok pr =>
          obtain ⟨fx, props⟩ := pr
          cases hstat : w.stat (joinPath cwd name) with
          | some k =>
            left
            rw [generate_mkdir_failed cwd name options w fx props k htr hrp
              hstat]
          | none =>
            left
            rw [generate_download_failed cwd name options w fx props htr hrp
              hstat hdl]
    · intro p c hw
      obtain ⟨fx, props, _, _, _, hdl2, _, _, _, _⟩ :=
        sidecar_inversion cwd name options w p c hw
      rw [hdl] at hdl2
      cases hdl2
  · intro p c hw
    obtain ⟨fx, props, _, _, _, hdl2, hex2, _, _, hgen⟩ :=
      sidecar_inversion cwd name options w p c hw
    refine ⟨hdl2, hex2, ?_⟩
    rw [hgen]
    simp

/-- Witness for C7: the failure part at a world whose download fails, and the
converse part at a successful invocation. -/
theorem C7_witness :
    ((((generate "/w" "app" sampleOptions ⟨[], false, true⟩).outcome =
        .failed ∨
      (generate "/w" "app" sampleOptions ⟨[], false, true⟩).outcome =
        .exited 1) ∧
      ∀ p c, Effect.writeFile p c ∉
        (generate "/w" "app" sampleOptions ⟨[], false, true⟩).effects)) ∧
    ((⟨[], false, true⟩ : World).downloadOk = false) ∧
    ((freshWorld.downloadOk = true ∧ freshWorld.extractOk = true ∧
      Effect.rmTempFile ∈
        (generate "/s" "proj" sampleOptions freshWorld).effects)) :=
  ⟨(C7_download_failure "/w" "app" sampleOptions ⟨[], false, true⟩).1 rfl,
   rfl,
   (C7_download_failure "/s" "proj" sampleOptions freshWorld).2
    (joinPath (joinPath "/s" "proj") ".flatlogicrc")
    (Json.stringify (mkApp "proj" (.obj (.ofList [
      ("frontend", .str "react"), ("backend", .str "nodejs"),
      ("db", .str "postgresql"), ("design", .str "classic"),
      ("entities", blankEntities)]))))
    (by
      have hcm := cliMode_ok sampleOptions (by decide) (by decide) (by decide)
        (by decide)
      have hrp := resolveProps_cli_ok sampleOptions _ (by decide) hcm
      rw [generate_success "/s" "proj" sampleOptions freshWorld [] _
        (truthy_pathExists_none freshWorld _ (by decide)) hrp (by decide)
        rfl rfl]
      simp [sampleOptions])⟩

/-- C8: with the target check passed, prompting happens if and only if zero
recognized option keys were supplied; and a non-interactive resolution that
succeeds always binds entities to the built-in blank preset. -/
theorem C8_mode_selection (cwd name : String) (options : Options) (w : World)
    (hfresh : truthy (pathExists w (joinPath cwd name)) = false) :
    ((∃ q, Effect.prompt q ∈ (generate cwd name options w).effects) ↔
      options.numKeys = 0) ∧
    (∀ props, cliMode options = .ok props →
      props.lookup "entities" = some blankEntities) := by
  constructor
  · constructor
    · rintro ⟨q, hq⟩
      by_contra hnz
      have hmode : options.hasArguments = true := by
        simpa [Options.hasArguments] using hnz
      exact no_prompt_nonInteractive cwd name options w hmode q hq
    · intro h0
      have hmode : options.hasArguments = false := by
        simp [Options.hasArguments, h0]
      exact ⟨"frontend", prompt_in_interactive cwd name options w hfresh hmode⟩
  · intro props hcm
    obtain ⟨hp, _⟩ := cliMode_ok_inv options props hcm
    subst hp
    simp [Json.lookup, JsonMems.lookup, JsonMems.ofList]

/-- Witness for C8 at a concrete interactive invocation. -/
theorem C8_witness :
    ((∃ q, Effect.prompt q ∈
        (generate "/h" "site" noOptions freshWorld).effects) ↔
      noOptions.numKeys = 0) ∧
    (∀ props, cliMode noOptions = .ok props →
      props.lookup "entities" = some blankEntities) :=
  C8_mode_selection "/h" "site" noOptions freshWorld (by decide)

/-- C9: the preset store's single entity `users` has pairwise-distinct field
names, listed in the order written in the preset definition. -/
theorem C9_field_names_nodup :
    PRESETS = [("blank", blankEntities)] ∧
    blankEntities = .arr (.ofList [usersEntity]) ∧
    fieldNames usersEntity = ["firstName", "lastName", "phoneNumber", "email",
      "role", "disabled", "avatar", "password", "emailVerified",
      "emailVerificationToken", "emailVerificationTokenExpiresAt",
      "passwordResetToken", "passwordResetTokenExpiresAt", "provider"] ∧
    (fieldNames usersEntity).Nodup := by
  refine ⟨rfl, rfl, by decide, by decide⟩

/-- C10: when the entry at the target path is neither a regular file nor a
directory, `pathExists` returns undefined (not false), so the exists-error
branch is skipped and the invocation instead fails unhandled at directory
creation, after performing only the prompts (if any) and the attempted
mkdir. -/
theorem C10_other_kind_unhandled (cwd name : String) (options : Options)
    (w : World) (fx : List Effect) (props : Json)
    (hk : w.stat (joinPath cwd name) = some .other)
    (hrp : resolveProps options = .ok (fx, props)) :
    pathExists w (joinPath cwd name) = none ∧
    (generate cwd name options w).outcome = .failed ∧
    (generate cwd name options w).effects = fx ++ [.mkdir (joinPath cwd name)] ∧
    Effect.printErr (existsMsg (joinPath cwd name)) ∉
      (generate cwd name options w).effects := by
  have hpe := pathExists_other w _ hk
  have htr : truthy (pathExists w (joinPath cwd name)) = false := by
    rw [hpe]; rfl
  have hg := generate_mkdir_failed cwd name options w fx props .other htr hrp hk
  refine ⟨hpe, by rw [hg], by rw [hg], ?_⟩
  rw [hg]
  intro hmem
  simp [List.mem_append] at hmem
  obtain ⟨q, hq⟩ := resolveProps_prompts options fx props hrp _ hmem
  simp at hq

/-- Witness for C10 with a socket-like entry at the target path. -/
theorem C10_witness :
    pathExists ⟨[("/w/app", .other)], true, true⟩ (joinPath "/w" "app") =
      none ∧
    (generate "/w" "app" noOptions
      ⟨[("/w/app", .other)], true, true⟩).outcome = .failed ∧
    (generate "/w" "app" noOptions
      ⟨[("/w/app", .other)], true, true⟩).effects =
      interactivePrompts.map Effect.prompt ++ [.mkdir (joinPath "/w" "app")] ∧
    Effect.printErr (existsMsg (joinPath "/w" "app")) ∉
      (generate "/w" "app" noOptions
        ⟨[("/w/app", .other)], true, true⟩).effects :=
  C10_other_kind_unhandled "/w" "app" noOptions
    ⟨[("/w/app", .other)], true, true⟩
    (interactivePrompts.map Effect.prompt) interactiveProps (by decide)
    (resolveProps_interactive noOptions (by decide))

end FlatlogicCli
